import Mathlib

/-!
Verification of the job orchestration and progress tracking subsystem of a
media conversion service. The definitions below are a shallow embedding of
the TypeScript source: the record schema (shared/schema.ts), the in-memory
job store MemStorage (server/storage.ts), the conversion pipeline
processConversion, the bulk submission route, and the bulk archive route.
External collaborators (video metadata fetch, transcoding, the filesystem)
are modelled as explicit parameters holding their observed outcomes.
-/

/-- A job record, mirroring the conversions table of shared/schema.ts.
Timestamps are modelled as natural numbers. Nullable columns are Option. -/
structure Conversion where
  id : Nat
  url : String
  title : Option String
  status : String
  progress : Option Int
  filePath : Option String
  fileName : Option String
  fileSize : Option Int
  errorMessage : Option String
  createdAt : Option Nat
  completedAt : Option Nat
deriving Repr, DecidableEq

/-- A user record, mirroring the users table of shared/schema.ts. -/
structure User where
  id : Nat
  username : String
  password : String
deriving Repr, DecidableEq

/-- A patch for updateConversion, mirroring the TypeScript type
Partial of Conversion: every field is optionally present; for nullable
columns a present field carries an Option value. -/
structure ConversionPatch where
  id : Option Nat := none
  url : Option String := none
  title : Option (Option String) := none
  status : Option String := none
  progress : Option (Option Int) := none
  filePath : Option (Option String) := none
  fileName : Option (Option String) := none
  fileSize : Option (Option Int) := none
  errorMessage : Option (Option String) := none
  createdAt : Option (Option Nat) := none
  completedAt : Option (Option Nat) := none
deriving Repr, DecidableEq

/-- The object spread merge in updateConversion: each field of the result
is the patch field when supplied and the existing field otherwise. -/
def mergeConversion (c : Conversion) (p : ConversionPatch) : Conversion :=
  { id := p.id.getD c.id
    url := p.url.getD c.url
    title := p.title.getD c.title
    status := p.status.getD c.status
    progress := p.progress.getD c.progress
    filePath := p.filePath.getD c.filePath
    fileName := p.fileName.getD c.fileName
    fileSize := p.fileSize.getD c.fileSize
    errorMessage := p.errorMessage.getD c.errorMessage
    createdAt := p.createdAt.getD c.createdAt
    completedAt := p.completedAt.getD c.completedAt }

/-- Lookup in an association list, mirroring JavaScript Map.prototype.get. -/
def mapGet {β : Type} (l : List (Nat × β)) (k : Nat) : Option β :=
  match l with
  | [] => none
  | e :: rest => if e.1 = k then some e.2 else mapGet rest k

/-- Insertion in an association list, mirroring Map.prototype.set: the
first entry with the key is replaced in place, otherwise the entry is
appended at the end. -/
def mapSet {β : Type} (l : List (Nat × β)) (k : Nat) (v : β) : List (Nat × β) :=
  match l with
  | [] => [(k, v)]
  | e :: rest => if e.1 = k then (k, v) :: rest else e :: mapSet rest k v

/-- Removal from an association list, mirroring Map.prototype.delete. -/
def mapDel {β : Type} (l : List (Nat × β)) (k : Nat) : List (Nat × β) :=
  match l with
  | [] => []
  | e :: rest => if e.1 = k then mapDel rest k else e :: mapDel rest k

/-- Key membership in an association list, mirroring Map.prototype.has
and the boolean result of Map.prototype.delete. -/
def mapHas {β : Type} (l : List (Nat × β)) (k : Nat) : Bool :=
  match l with
  | [] => false
  | e :: rest => if e.1 = k then true else mapHas rest k

/-- The in-memory store MemStorage of server/storage.ts. -/
structure MemStorage where
  users : List (Nat × User)
  conversions : List (Nat × Conversion)
  currentUserId : Nat
  currentConversionId : Nat
deriving Repr, DecidableEq

/-- The MemStorage constructor: empty maps, both counters start at 1. -/
def emptyStorage : MemStorage :=
  { users := [], conversions := [], currentUserId := 1, currentConversionId := 1 }

/-- MemStorage.getConversion. -/
def getConversion (s : MemStorage) (id : Nat) : Option Conversion :=
  mapGet s.conversions id

/-- MemStorage.createConversion: assigns the next identifier, increments
the counter, and stores a fresh record in status pending with progress 0
and all nullable fields null except createdAt. -/
def createConversion (s : MemStorage) (url : String) (now : Nat) :
    Conversion × MemStorage :=
  let id := s.currentConversionId
  let c : Conversion :=
    { id := id
      url := url
      title := none
      status := "pending"
      progress := some 0
      filePath := none
      fileName := none
      fileSize := none
      errorMessage := none
      createdAt := some now
      completedAt := none }
  (c, { s with conversions := mapSet s.conversions id c,
                currentConversionId := id + 1 })

/-- MemStorage.updateConversion: absent id is a no-op returning none;
otherwise the patch is merged into the existing record and stored. -/
def updateConversion (s : MemStorage) (id : Nat) (p : ConversionPatch) :
    Option Conversion × MemStorage :=
  match mapGet s.conversions id with
  | none => (none, s)
  | some c =>
    let u := mergeConversion c p
    (some u, { s with conversions := mapSet s.conversions id u })

/-- MemStorage.deleteConversion: returns whether an entry existed. -/
def deleteConversion (s : MemStorage) (id : Nat) : Bool × MemStorage :=
  (mapHas s.conversions id, { s with conversions := mapDel s.conversions id })

/-- MemStorage.getUser. -/
def getUser (s : MemStorage) (id : Nat) : Option User :=
  mapGet s.users id

/-- MemStorage.createUser. -/
def createUser (s : MemStorage) (username password : String) :
    User × MemStorage :=
  let id := s.currentUserId
  let u : User := { id := id, username := username, password := password }
  (u, { s with users := mapSet s.users id u, currentUserId := id + 1 })

/-- The character class of the JavaScript regex token for word characters:
ASCII letters, digits and the underscore. -/
def isWordChar (ch : Char) : Bool :=
  ch.isAlphanum || ch = '_'

/-- JavaScript String.prototype.trim on a character list: drop whitespace
from both ends. -/
def trimChars (l : List Char) : List Char :=
  ((l.dropWhile Char.isWhitespace).reverse.dropWhile Char.isWhitespace).reverse

/-- The title sanitization in processConversion: remove every character
that is not a word character, whitespace or a hyphen, then trim. -/
def sanitizeTitle (t : String) : String :=
  String.mk (trimChars (t.data.filter
    (fun ch => isWordChar ch || ch.isWhitespace || ch = '-')))

/-- JavaScript Math.round on a rational: the floor of the value plus one
half (Math.round rounds half toward positive infinity). Written in
integer arithmetic on the numerator and denominator; the lemma
jsRound_eq_floor below shows it equals the floor of q + 1 / 2. -/
def jsRound (q : ℚ) : Int :=
  (2 * q.num + (q.den : Int)) / (2 * (q.den : Int))

/-- The progress mapping in the transcode callback of processConversion:
Math.min(Math.max(Math.round(progress.percent or 0), 15), 95). An absent
percent value is modelled as none and defaults to 0. -/
def clampPercent (p : Option ℚ) : Int :=
  min (max (jsRound (p.getD 0)) 15) 95

/-- The first store write of processConversion: enter processing at
progress 5. -/
def processingPatch : ConversionPatch :=
  { status := some "processing", progress := some (some 5) }

/-- The metadata write of processConversion: sanitized title, progress 15. -/
def titlePatch (t : String) : ConversionPatch :=
  { title := some (some t), progress := some (some 15) }

/-- One transcode callback write of processConversion. -/
def progressPatch (v : Int) : ConversionPatch :=
  { progress := some (some v) }

/-- The success write of processConversion: status completed, progress 100,
artifact location, display filename, byte size, completion timestamp. -/
def completedPatch (fp fn : String) (sz : Int) (doneAt : Nat) :
    ConversionPatch :=
  { status := some "completed", progress := some (some 100)
    filePath := some (some fp), fileName := some (some fn)
    fileSize := some (some sz), completedAt := some (some doneAt) }

/-- The catch handler write of processConversion: status failed plus the
error message. -/
def failedPatch (msg : String) : ConversionPatch :=
  { status := some "failed", errorMessage := some (some msg) }

/-- Observed outcomes of the external collaborators for one pipeline run:
the metadata fetch result (none when it throws), the sequence of transcode
progress callback values that fired (none inside models an undefined
percent), whether the transcode resolved, the file stat result (none when
it throws), the Date.now nonce used in the storage key, the completion
timestamp, and the error message derived from a failure. -/
structure PipelineEnv where
  infoTitle : Option String
  transcodeEvents : List (Option ℚ)
  transcodeOk : Bool
  statSize : Option Int
  nonce : Nat
  doneAt : Nat
  errMsg : String
deriving Repr, DecidableEq

/-- The sequence of updateConversion patches that one run of
processConversion issues for its job, in program order, as a function of
the collaborator outcomes. A failure at any step routes to the single
catch handler, which appends the failed write after the writes already
made. -/
def pipelineTrace (env : PipelineEnv) (id : Nat) : List ConversionPatch :=
  processingPatch ::
    match env.infoTitle with
    | none => [failedPatch env.errMsg]
    | some raw =>
      let t := sanitizeTitle raw
      titlePatch t ::
        ((env.transcodeEvents.map (fun p => progressPatch (clampPercent p))) ++
          (if env.transcodeOk then
            match env.statSize with
            | some sz =>
              [completedPatch (toString id ++ "_" ++ toString env.nonce ++ ".mp3")
                (t ++ "_" ++ toString id ++ ".mp3") sz env.doneAt]
            | none => [failedPatch env.errMsg]
          else [failedPatch env.errMsg]))

/-- Apply a sequence of pipeline patches to the store through
updateConversion. -/
def applyTrace (id : Nat) : List ConversionPatch → MemStorage → MemStorage
  | [], s => s
  | p :: rest, s => applyTrace id rest (updateConversion s id p).2

/-- processConversion of server/storage.ts: read the record once and stop
silently when it is absent, otherwise issue the writes of the trace. -/
def processConversion (env : PipelineEnv) (id : Nat) (s : MemStorage) :
    MemStorage :=
  match getConversion s id with
  | none => s
  | some _ => applyTrace id (pipelineTrace env id) s

/-- Whether an Except value is an error. -/
def isErr {ε α : Type} : Except ε α → Bool
  | Except.error _ => true
  | Except.ok _ => false

/-- The loop body of the bulk submission route: for each url in order,
check platform validity, return a 400 error immediately on the first
invalid url, otherwise create a job (the pipeline start is asynchronous
and not part of the store effect of the request). -/
def bulkLoop (v : String → Bool) (now : Nat) :
    List String → MemStorage → List Conversion →
    Except String (List Conversion) × MemStorage
  | [], s, acc => (Except.ok acc.reverse, s)
  | u :: rest, s, acc =>
    if v u then
      let r := createConversion s u now
      bulkLoop v now rest r.2 (r.1 :: acc)
    else (Except.error ("Invalid YouTube URL: " ++ u), s)

/-- The bulk submission route POST api conversions bulk: the request body
is first checked against bulkConversionSchema (between 1 and 10 urls, each
syntactically a url, modelled by the predicate isUrl); a schema failure is
a 400 with no store effect. Then the loop validates each url against the
platform check (modelled by the predicate v) and creates jobs as it goes. -/
def bulkRoute (isUrl v : String → Bool) (urls : List String) (now : Nat)
    (s : MemStorage) : Except String (List Conversion) × MemStorage :=
  if 1 ≤ urls.length ∧ urls.length ≤ 10 ∧ urls.all isUrl then
    bulkLoop v now urls s []
  else (Except.error "Invalid request data", s)

/-- Create one job per url in order, returning the final store. -/
def createManyStore (now : Nat) : List String → MemStorage → MemStorage
  | [], s => s
  | u :: rest, s => createManyStore now rest (createConversion s u now).2

/-- One entry of the zip archive: the backing file key and the display
name recorded in the archive. -/
structure ZipEntry where
  path : String
  name : String
deriving Repr, DecidableEq

/-- Outcome of the bulk download route: a 400 validation error, a 404, or
a streamed archive with its entries in order. -/
inductive BulkDownloadResult where
  | badRequest
  | notFound
  | archive (entries : List ZipEntry)
deriving Repr, DecidableEq

/-- The filter of the bulk download route: keep a resolved record only
when it exists, its status is completed and its artifact location is
non-null. -/
def validForBulk (oc : Option Conversion) : Option Conversion :=
  match oc with
  | none => none
  | some c => if c.status = "completed" ∧ c.filePath ≠ none then some c else none

/-- The archive entry loop of the bulk download route: one entry per
surviving record whose backing file still exists (fe models
fs.pathExists), named by the display filename with the generic fallback. -/
def bulkEntries (fe : String → Bool) (cs : List Conversion) : List ZipEntry :=
  cs.filterMap (fun c =>
    match c.filePath with
    | some fp => if fe fp then some { path := fp, name := c.fileName.getD "audio.mp3" } else none
    | none => none)

/-- The bulk download route POST api download bulk: an empty id list is a
400; if no resolved record survives the filter, a 404; otherwise the
archive is streamed with the surviving entries in input order. -/
def downloadBulk (fe : String → Bool) (s : MemStorage) (ids : List Nat) :
    BulkDownloadResult :=
  if ids = [] then BulkDownloadResult.badRequest
  else
    let valid := (ids.map (getConversion s)).filterMap validForBulk
    if valid = [] then BulkDownloadResult.notFound
    else BulkDownloadResult.archive (bulkEntries fe valid)

/-- The statuses carried by a sequence of patches, in order. -/
def traceStatuses (tr : List ConversionPatch) : List String :=
  tr.filterMap ConversionPatch.status

/-- The progress values persisted by patches that do not leave the
processing phase: patches carrying no status change or the transition into
processing. Terminal patches are excluded. -/
def processingProgressWrites (tr : List ConversionPatch) : List Int :=
  tr.filterMap (fun p =>
    if p.status = none ∨ p.status = some "processing" then p.progress.join
    else none)

/-- Boolean check that a sequence of integers is non-decreasing from each
element to the next. -/
def nonDecreasingB : List Int → Bool
  | [] => true
  | [_] => true
  | a :: b :: rest => decide (a ≤ b) && nonDecreasingB (b :: rest)

/-- A status is terminal when it is completed or failed. -/
def isTerminalStatus (s : String) : Prop :=
  s = "completed" ∨ s = "failed"

/-- The record invariant of claim C3: artifact location and error detail
are mutually exclusive and only present in a terminal status; a completed
record has all artifact fields and the completion timestamp non-null and
progress 100; a failed record has the error detail non-null and the
artifact fields null. -/
def recordInv (c : Conversion) : Prop :=
  (c.filePath = none ∨ c.errorMessage = none) ∧
  (c.filePath ≠ none → isTerminalStatus c.status) ∧
  (c.errorMessage ≠ none → isTerminalStatus c.status) ∧
  (c.status = "completed" →
    c.filePath ≠ none ∧ c.fileName ≠ none ∧ c.fileSize ≠ none ∧
    c.completedAt ≠ none ∧ c.progress = some 100) ∧
  (c.status = "failed" →
    c.errorMessage ≠ none ∧ c.filePath = none ∧ c.fileName = none ∧
    c.fileSize = none)

/-- A record that has not yet received its terminal write: status pending
or processing, with artifact fields, error detail and completion
timestamp all null. -/
def preTerminal (c : Conversion) : Prop :=
  (c.status = "pending" ∨ c.status = "processing") ∧
  c.filePath = none ∧ c.fileName = none ∧ c.fileSize = none ∧
  c.errorMessage = none ∧ c.completedAt = none

/-- A patch is a safe intermediate pipeline write when it maps every
record that is not yet terminal to a record that is still not terminal. -/
def stepPatch (p : ConversionPatch) : Prop :=
  ∀ c, preTerminal c → preTerminal (mergeConversion c p)

/-- A patch is a valid terminal pipeline write when it maps every record
that is not yet terminal to a record satisfying the record invariant. -/
def termPatch (p : ConversionPatch) : Prop :=
  ∀ c, preTerminal c → recordInv (mergeConversion c p)

/-- The discipline of a remaining pipeline write sequence: every write
except the last is a safe intermediate write, and the last is a valid
terminal write. -/
def GoodTail : List ConversionPatch → Prop
  | [] => True
  | p :: rest =>
    (rest = [] → termPatch p) ∧ (rest ≠ [] → stepPatch p) ∧ GoodTail rest

/-- A state of the whole subsystem: the store plus, for each launched
pipeline, the writes it has not yet issued. -/
structure SysState where
  store : MemStorage
  pipelines : List (Nat × List ConversionPatch)

/-- One step of the subsystem: a submission creates a job and registers
its pipeline under the fresh identifier; a running pipeline issues its
next store write; a deletion request removes a record. Steps interleave
arbitrarily across jobs, modelling the asynchronous pipelines. -/
inductive SysStep : SysState → SysState → Prop
  | create (st : SysState) (url : String) (now : Nat) (env : PipelineEnv) :
      SysStep st
        { store := (createConversion st.store url now).2
          pipelines := mapSet st.pipelines st.store.currentConversionId
            (pipelineTrace env st.store.currentConversionId) }
  | stepPipe (st : SysState) (id : Nat) (p : ConversionPatch)
      (rest : List ConversionPatch)
      (h : mapGet st.pipelines id = some (p :: rest)) :
      SysStep st
        { store := (updateConversion st.store id p).2
          pipelines := mapSet st.pipelines id rest }
  | deleteStep (st : SysState) (id : Nat) :
      SysStep st
        { store := (deleteConversion st.store id).2
          pipelines := st.pipelines }

/-- States reachable from the initial empty state by the operations. -/
inductive Reachable : SysState → Prop
  | init : Reachable { store := emptyStorage, pipelines := [] }
  | step {st st' : SysState} : Reachable st → SysStep st st' → Reachable st'

/-- The inductive system invariant: every stored record satisfies the
record invariant and has an identifier below the counter; every pipeline
is registered below the counter, its remaining writes follow the write
discipline, and while writes remain its record is not yet terminal. -/
def SysInv (st : SysState) : Prop :=
  (∀ k c, mapGet st.store.conversions k = some c →
    k < st.store.currentConversionId ∧ recordInv c) ∧
  (∀ k tr, mapGet st.pipelines k = some tr →
    k < st.store.currentConversionId ∧ GoodTail tr ∧
      (tr ≠ [] → ∀ c, mapGet st.store.conversions k = some c → preTerminal c))

/-- A successful pipeline environment: metadata fetch returns the title
Song, one transcode callback at fifty percent, transcode resolves, the
output file has 1000 bytes. -/
def envGood : PipelineEnv :=
  { infoTitle := some "Song", transcodeEvents := [some 50]
    transcodeOk := true, statSize := some 1000, nonce := 7, doneAt := 99
    errMsg := "e" }

/-- A failing pipeline environment: the metadata fetch throws. -/
def envBad : PipelineEnv :=
  { infoTitle := none, transcodeEvents := [], transcodeOk := true
    statSize := none, nonce := 0, doneAt := 0, errMsg := "boom" }

/-- An environment whose transcode callbacks report a high percentage and
then a lower one. -/
def envC4 : PipelineEnv :=
  { infoTitle := some "t", transcodeEvents := [some 80, some 20]
    transcodeOk := true, statSize := some 1000, nonce := 0, doneAt := 0
    errMsg := "e" }

/-- An environment with an overflowing callback value and an undefined
one: 140 percent clamps to 95, an undefined percent defaults to 0 and
clamps up to 15. -/
def envC7 : PipelineEnv :=
  { infoTitle := some "T", transcodeEvents := [some 140, none]
    transcodeOk := true, statSize := some 5, nonce := 3, doneAt := 4
    errMsg := "m" }

/-- A store holding one completed job (id 1) and one failed job (id 2):
two submissions followed by a successful and a failing pipeline run. -/
def storeC6 : MemStorage :=
  processConversion envBad 2 (processConversion envGood 1
    (createConversion (createConversion emptyStorage "u1" 0).2 "u2" 1).2)

/-- A store holding a single pending job with identifier 1. -/
def storeOne : MemStorage :=
  (createConversion emptyStorage "https://youtu.be/x" 0).2

/-- A patch setting only the progress field. -/
def patchProgress50 : ConversionPatch :=
  { progress := some (some 50) }

/-- The single pending record held by storeOne. -/
def recOne : Conversion :=
  (createConversion emptyStorage "https://youtu.be/x" 0).1

/-- Sanity check for the integer formulation of Math.round: it is the
floor of the value plus one half. -/
theorem jsRound_eq_floor (q : ℚ) : jsRound q = Int.floor (q + 1 / 2) := by
  have hq : q + 1 / 2 =
      (((2 * q.num + (q.den : Int) : Int) : ℚ)) / (((2 * q.den : ℕ) : ℚ)) := by
    have hden : ((q.den : ℚ)) ≠ 0 := by
      exact_mod_cast q.den_nz
    conv_lhs => rw [← Rat.num_div_den q]
    push_cast
    field_simp
    ring
  rw [hq, Rat.floor_intCast_div_natCast]
  unfold jsRound
  congr 1

/-- The boolean monotonicity check agrees with chained inequality. -/
theorem nonDecreasingB_iff (l : List Int) :
    nonDecreasingB l = true ↔ List.Chain' (fun a b => a ≤ b) l := by
  induction l with
  | nil => simp [nonDecreasingB]
  | cons a rest ih =>
    cases rest with
    | nil => simp [nonDecreasingB]
    | cons b r =>
      simp only [nonDecreasingB, Bool.and_eq_true, decide_eq_true_eq,
        List.chain'_cons] at ih ⊢
      rw [ih]

/-- mapGet after mapSet at the same key. -/
theorem mapGet_set_eq {β : Type} (l : List (Nat × β)) (k : Nat) (v : β) :
    mapGet (mapSet l k v) k = some v := by
  induction l with
  | nil => simp [mapGet, mapSet]
  | cons e rest ih =>
    by_cases h : e.1 = k
    · simp [mapGet, mapSet, h]
    · simp [mapGet, mapSet, h, ih]

/-- mapGet after mapSet at a different key. -/
theorem mapGet_set_ne {β : Type} (l : List (Nat × β)) (k k' : Nat) (v : β)
    (h : k' ≠ k) : mapGet (mapSet l k v) k' = mapGet l k' := by
  induction l with
  | nil => simp [mapGet, mapSet, Ne.symm h]
  | cons e rest ih =>
    by_cases he : e.1 = k
    · subst he
      simp [mapGet, mapSet, Ne.symm h]
    · simp [mapGet, mapSet, he, ih]

/-- mapGet after mapDel at the deleted key. -/
theorem mapGet_del_self {β : Type} (l : List (Nat × β)) (k : Nat) :
    mapGet (mapDel l k) k = none := by
  induction l with
  | nil => simp [mapGet, mapDel]
  | cons e rest ih =>
    by_cases h : e.1 = k
    · simp [mapDel, h, ih]
    · simp [mapGet, mapDel, h, ih]

/-- mapGet after mapDel at a different key. -/
theorem mapGet_del_ne {β : Type} (l : List (Nat × β)) (k k' : Nat)
    (h : k' ≠ k) : mapGet (mapDel l k) k' = mapGet l k' := by
  induction l with
  | nil => simp [mapDel]
  | cons e rest ih =>
    by_cases he : e.1 = k
    · subst he
      simp [mapGet, mapDel, Ne.symm h, ih]
    · simp [mapGet, mapDel, he, ih]

/-- Deleting a key twice is the same as deleting it once. -/
theorem mapDel_del {β : Type} (l : List (Nat × β)) (k : Nat) :
    mapDel (mapDel l k) k = mapDel l k := by
  induction l with
  | nil => simp [mapDel]
  | cons e rest ih =>
    by_cases h : e.1 = k
    · simp [mapDel, h, ih]
    · simp [mapDel, h, ih]

/-- After deletion the key is no longer present. -/
theorem mapHas_del_self {β : Type} (l : List (Nat × β)) (k : Nat) :
    mapHas (mapDel l k) k = false := by
  induction l with
  | nil => simp [mapHas, mapDel]
  | cons e rest ih =>
    by_cases h : e.1 = k
    · simp [mapDel, h, ih]
    · simp [mapHas, mapDel, h, ih]

/-- A successful lookup implies key membership. -/
theorem mapHas_of_get {β : Type} (l : List (Nat × β)) (k : Nat) (v : β)
    (h : mapGet l k = some v) : mapHas l k = true := by
  induction l with
  | nil => simp [mapGet] at h
  | cons e rest ih =>
    by_cases he : e.1 = k
    · simp [mapHas, he]
    · simp only [mapGet, he, if_false] at h
      simp [mapHas, he, ih h]

/-- Claim C5: updating a nonexistent id returns absent and leaves the
store unchanged; after a deletion the id resolves to absent and every
subsequent update for it is a no-op that does not recreate the record. -/
theorem C5_update_absent_noop :
    (∀ s id p, getConversion s id = none →
      updateConversion s id p = (none, s)) ∧
    (∀ s id, getConversion (deleteConversion s id).2 id = none) ∧
    (∀ s id p, updateConversion (deleteConversion s id).2 id p
      = (none, (deleteConversion s id).2)) := by
  have habs : ∀ s id p, getConversion s id = none →
      updateConversion s id p = (none, s) := by
    intro s id p h
    unfold getConversion at h
    unfold updateConversion
    rw [h]
  have hdel : ∀ s id, getConversion (deleteConversion s id).2 id = none := by
    intro s id
    simp [getConversion, deleteConversion, mapGet_del_self]
  exact ⟨habs, hdel, fun s id p => habs _ id p (hdel s id)⟩

/-- Witness for claim C5 at concrete inputs: an update on the empty store
and an update after deleting the only record. -/
theorem C5_witness :
    updateConversion emptyStorage 1 patchProgress50 = (none, emptyStorage) ∧
    getConversion (deleteConversion storeOne 1).2 1 = none ∧
    updateConversion (deleteConversion storeOne 1).2 1 patchProgress50
      = (none, (deleteConversion storeOne 1).2) :=
  ⟨C5_update_absent_noop.1 emptyStorage 1 patchProgress50 (by decide),
   C5_update_absent_noop.2.1 storeOne 1,
   C5_update_absent_noop.2.2 storeOne 1 patchProgress50⟩

/-- Claim C8: updating an existing record stores and returns the merge of
the patch into the record, and every field the patch does not supply is
unchanged by the merge. -/
theorem C8_update_merges (s : MemStorage) (id : Nat) (p : ConversionPatch)
    (c : Conversion) (h : getConversion s id = some c) :
    (updateConversion s id p).1 = some (mergeConversion c p) ∧
    getConversion (updateConversion s id p).2 id
      = some (mergeConversion c p) ∧
    (p.id = none → (mergeConversion c p).id = c.id) ∧
    (p.url = none → (mergeConversion c p).url = c.url) ∧
    (p.title = none → (mergeConversion c p).title = c.title) ∧
    (p.status = none → (mergeConversion c p).status = c.status) ∧
    (p.progress = none → (mergeConversion c p).progress = c.progress) ∧
    (p.filePath = none → (mergeConversion c p).filePath = c.filePath) ∧
    (p.fileName = none → (mergeConversion c p).fileName = c.fileName) ∧
    (p.fileSize = none → (mergeConversion c p).fileSize = c.fileSize) ∧
    (p.errorMessage = none →
      (mergeConversion c p).errorMessage = c.errorMessage) ∧
    (p.createdAt = none → (mergeConversion c p).createdAt = c.createdAt) ∧
    (p.completedAt = none →
      (mergeConversion c p).completedAt = c.completedAt) := by
  unfold getConversion at h
  refine ⟨?_, ?_, ?_, ?_, ?_, ?_, ?_, ?_, ?_, ?_, ?_, ?_, ?_⟩
  · unfold updateConversion
    rw [h]
  · unfold updateConversion getConversion
    rw [h]
    exact mapGet_set_eq _ _ _
  all_goals intro hp
  all_goals simp [mergeConversion, hp]

/-- Witness for claim C8: patching only the progress of the pending
record in storeOne. -/
theorem C8_witness :
    (updateConversion storeOne 1 patchProgress50).1
      = some (mergeConversion recOne patchProgress50) ∧
    getConversion (updateConversion storeOne 1 patchProgress50).2 1
      = some (mergeConversion recOne patchProgress50) ∧
    (patchProgress50.id = none →
      (mergeConversion recOne patchProgress50).id = recOne.id) ∧
    (patchProgress50.url = none →
      (mergeConversion recOne patchProgress50).url = recOne.url) ∧
    (patchProgress50.title = none →
      (mergeConversion recOne patchProgress50).title = recOne.title) ∧
    (patchProgress50.status = none →
      (mergeConversion recOne patchProgress50).status = recOne.status) ∧
    (patchProgress50.progress = none →
      (mergeConversion recOne patchProgress50).progress = recOne.progress) ∧
    (patchProgress50.filePath = none →
      (mergeConversion recOne patchProgress50).filePath = recOne.filePath) ∧
    (patchProgress50.fileName = none →
      (mergeConversion recOne patchProgress50).fileName = recOne.fileName) ∧
    (patchProgress50.fileSize = none →
      (mergeConversion recOne patchProgress50).fileSize = recOne.fileSize) ∧
    (patchProgress50.errorMessage = none →
      (mergeConversion recOne patchProgress50).errorMessage
        = recOne.errorMessage) ∧
    (patchProgress50.createdAt = none →
      (mergeConversion recOne patchProgress50).createdAt
        = recOne.createdAt) ∧
    (patchProgress50.completedAt = none →
      (mergeConversion recOne patchProgress50).completedAt
        = recOne.completedAt) :=
  C8_update_merges storeOne 1 patchProgress50 recOne (by decide)

/-- Claim C9: deleting an existing record returns true and removes it; a
second delete of the same id returns false and leaves the store exactly
as after the first delete. -/
theorem C9_delete_idem (s : MemStorage) (id : Nat) (c : Conversion)
    (h : getConversion s id = some c) :
    (deleteConversion s id).1 = true ∧
    getConversion (deleteConversion s id).2 id = none ∧
    (deleteConversion (deleteConversion s id).2 id).1 = false ∧
    (deleteConversion (deleteConversion s id).2 id).2
      = (deleteConversion s id).2 := by
  unfold getConversion at h
  refine ⟨?_, ?_, ?_, ?_⟩
  · unfold deleteConversion
    exact mapHas_of_get _ _ _ h
  · simp [getConversion, deleteConversion, mapGet_del_self]
  · simp [deleteConversion, mapHas_del_self]
  · simp [deleteConversion, mapDel_del]

/-- Witness for claim C9: deleting the only record of storeOne twice. -/
theorem C9_witness :
    (deleteConversion storeOne 1).1 = true ∧
    getConversion (deleteConversion storeOne 1).2 1 = none ∧
    (deleteConversion (deleteConversion storeOne 1).2 1).1 = false ∧
    (deleteConversion (deleteConversion storeOne 1).2 1).2
      = (deleteConversion storeOne 1).2 :=
  C9_delete_idem storeOne 1 recOne (by decide)

/-- Claim C10: running the pipeline for an id that is absent from the
store returns immediately with the store unchanged. -/
theorem C10_pipeline_absent_noop (env : PipelineEnv) (id : Nat)
    (s : MemStorage) (h : getConversion s id = none) :
    processConversion env id s = s := by
  unfold processConversion
  rw [h]

/-- Witness for claim C10: a pipeline launched for id 5 on the empty
store. -/
theorem C10_witness : processConversion envGood 5 emptyStorage
    = emptyStorage :=
  C10_pipeline_absent_noop envGood 5 emptyStorage (by decide)

/-- A transcode progress patch carries no status. -/
@[simp] theorem progressPatch_status (v : Int) :
    (progressPatch v).status = none := rfl

/-- A transcode progress patch carries exactly its progress value. -/
@[simp] theorem progressPatch_progress (v : Int) :
    (progressPatch v).progress = some (some v) := rfl

/-- Transcode progress patches carry no status, so they contribute no
status write. -/
theorem traceStatuses_progress_append (l : List (Option ℚ))
    (rest : List ConversionPatch) :
    traceStatuses ((l.map (fun p => progressPatch (clampPercent p))) ++ rest)
      = traceStatuses rest := by
  induction l with
  | nil => rfl
  | cons p t ih =>
    simp only [List.map_cons, List.cons_append, traceStatuses,
      List.filterMap_cons, progressPatch_status]
    exact ih

/-- Claim C2: every created job starts in status pending, and one
pipeline run writes exactly the status sequence processing then a single
terminal status (completed or failed); no write after the terminal one
carries a status, so a terminal status is never left and a job never
holds two terminal states. -/
theorem C2_status_forward :
    (∀ s url now, ((createConversion s url now).1).status = "pending") ∧
    (∀ env id,
      traceStatuses (pipelineTrace env id) = ["processing", "completed"] ∨
      traceStatuses (pipelineTrace env id) = ["processing", "failed"]) := by
  constructor
  · intro s url now
    rfl
  · intro env id
    unfold pipelineTrace
    cases hinfo : env.infoTitle with
    | none =>
      right
      rfl
    | some t =>
      cases hok : env.transcodeOk with
      | false =>
        right
        simp [traceStatuses, processingPatch, titlePatch, failedPatch,
          traceStatuses_progress_append]
      | true =>
        cases hsz : env.statSize with
        | none =>
          right
          simp [traceStatuses, processingPatch, titlePatch, failedPatch,
            traceStatuses_progress_append]
        | some sz =>
          left
          simp [traceStatuses, processingPatch, titlePatch, completedPatch,
            traceStatuses_progress_append]

/-- Every clamped transcode progress value lies in the band 15 to 95. -/
theorem clampPercent_bounds (p : Option ℚ) :
    15 ≤ clampPercent p ∧ clampPercent p ≤ 95 := by
  unfold clampPercent
  constructor
  · exact le_min (le_max_right _ _) (by norm_num)
  · exact min_le_right _ _

/-- The progress values written during the processing phase by the
transcode patches, followed by any terminal patch, reduce to the clamped
callback values: terminal patches contribute nothing. -/
theorem ppw_progress_append (l : List (Option ℚ))
    (rest : List ConversionPatch) :
    processingProgressWrites
        ((l.map (fun p => progressPatch (clampPercent p))) ++ rest)
      = l.map clampPercent ++ processingProgressWrites rest := by
  induction l with
  | nil => rfl
  | cons p t ih =>
    simpa [processingProgressWrites, progressPatch] using ih

/-- The first pipeline write persists progress 5 inside the processing
phase. -/
theorem ppw_cons_processing (rest : List ConversionPatch) :
    processingProgressWrites (processingPatch :: rest)
      = 5 :: processingProgressWrites rest := rfl

/-- The metadata write persists progress 15 inside the processing phase. -/
theorem ppw_cons_title (t : String) (rest : List ConversionPatch) :
    processingProgressWrites (titlePatch t :: rest)
      = 15 :: processingProgressWrites rest := rfl

/-- The failed write is outside the processing phase. -/
theorem ppw_failed (m : String) :
    processingProgressWrites [failedPatch m] = [] := rfl

/-- The completed write is outside the processing phase. -/
theorem ppw_completed (fp fn : String) (sz : Int) (d : Nat) :
    processingProgressWrites [completedPatch fp fn sz d] = [] := rfl

/-- Claim C4 counterexample: with transcode callbacks reporting 80 percent
and then 20 percent, the persisted progress sequence during processing is
5, 15, 80, 20, which is not monotonic non-decreasing. -/
theorem C4_counterexample :
    processingProgressWrites (pipelineTrace envC4 1) = [5, 15, 80, 20] ∧
    ¬ List.Chain' (fun a b => a ≤ b)
        (processingProgressWrites (pipelineTrace envC4 1)) := by
  constructor
  · decide
  · rw [← nonDecreasingB_iff]
    decide

/-- Claim C4 as amended: during processing the persisted progress values
are exactly 5, then 15, then one clamped value per transcode callback in
callback order (just 5 when the metadata fetch fails); each clamped value
lies in the band 15 to 95, but the sequence is not guaranteed monotonic
because the code clamps without taking the maximum with the previous
value. -/
theorem C4_progress_writes (env : PipelineEnv) (id : Nat) :
    (env.infoTitle = none →
      processingProgressWrites (pipelineTrace env id) = [5]) ∧
    (∀ t, env.infoTitle = some t →
      processingProgressWrites (pipelineTrace env id)
        = 5 :: 15 :: env.transcodeEvents.map clampPercent) ∧
    (∀ v ∈ env.transcodeEvents.map clampPercent, 15 ≤ v ∧ v ≤ 95) := by
  refine ⟨?_, ?_, ?_⟩
  · intro h
    unfold pipelineTrace
    rw [h]
    rfl
  · intro t h
    obtain ⟨info, events, ok, size, nonce, dAt, msg⟩ := env
    have ht : info = some t := h
    subst ht
    cases ok with
    | false =>
      change processingProgressWrites
          (processingPatch :: titlePatch (sanitizeTitle t) ::
            ((events.map (fun p => progressPatch (clampPercent p))) ++
              [failedPatch msg])) = _
      rw [ppw_cons_processing, ppw_cons_title, ppw_progress_append,
        ppw_failed, List.append_nil]
    | true =>
      cases size with
      | none =>
        change processingProgressWrites
            (processingPatch :: titlePatch (sanitizeTitle t) ::
              ((events.map (fun p => progressPatch (clampPercent p))) ++
                [failedPatch msg])) = _
        rw [ppw_cons_processing, ppw_cons_title, ppw_progress_append,
          ppw_failed, List.append_nil]
      | some sz =>
        change processingProgressWrites
            (processingPatch :: titlePatch (sanitizeTitle t) ::
              ((events.map (fun p => progressPatch (clampPercent p))) ++
                [completedPatch (toString id ++ "_" ++ toString nonce ++ ".mp3")
                  (sanitizeTitle t ++ "_" ++ toString id ++ ".mp3") sz dAt])) = _
        rw [ppw_cons_processing, ppw_cons_title, ppw_progress_append,
          ppw_completed, List.append_nil]
  · intro v hv
    obtain ⟨p, _, rfl⟩ := List.mem_map.mp hv
    exact clampPercent_bounds p

/-- Witness for the amended claim C4: the concrete progress write
sequence of the counterexample environment. -/
theorem C4_witness :
    processingProgressWrites (pipelineTrace envC4 2)
      = 5 :: 15 :: envC4.transcodeEvents.map clampPercent :=
  (C4_progress_writes envC4 2).2.1 "t" rfl

/-- Claim C7: every value delivered by the transcode progress callback
(also an undefined one, which defaults to 0) is rounded and clamped into
the inclusive band 15 to 95, and the pipeline persists exactly one such
clamped write per callback, in order. -/
theorem C7_progress_clamped :
    (∀ p : Option ℚ, 15 ≤ clampPercent p ∧ clampPercent p ≤ 95) ∧
    (∀ env id t, env.infoTitle = some t →
      ∃ tail, pipelineTrace env id
        = processingPatch :: titlePatch (sanitizeTitle t) ::
            ((env.transcodeEvents.map
              (fun p => progressPatch (clampPercent p))) ++ tail)) := by
  constructor
  · exact clampPercent_bounds
  · intro env id t h
    unfold pipelineTrace
    rw [h]
    exact ⟨_, rfl⟩

/-- Witness for claim C7: an overflowing callback value clamps to 95 and
the concrete environment envC7 produces its two clamped writes in order. -/
theorem C7_witness :
    (15 ≤ clampPercent (some 140) ∧ clampPercent (some 140) ≤ 95) ∧
    (∃ tail, pipelineTrace envC7 9
      = processingPatch :: titlePatch (sanitizeTitle "T") ::
          ((envC7.transcodeEvents.map
            (fun p => progressPatch (clampPercent p))) ++ tail)) :=
  ⟨C7_progress_clamped.1 (some 140), C7_progress_clamped.2 envC7 9 "T" rfl⟩

/-- When some url in the list fails the platform check, the bulk loop
returns a validation error, and the store effect is exactly one created
job per url before the first failing one. -/
theorem bulkLoop_first_invalid (v : String → Bool) (now : Nat) :
    ∀ (urls : List String) (s : MemStorage) (acc : List Conversion),
      (∃ u ∈ urls, v u = false) →
      isErr (bulkLoop v now urls s acc).1 = true ∧
      (bulkLoop v now urls s acc).2
        = createManyStore now (urls.takeWhile v) s := by
  intro urls
  induction urls with
  | nil =>
    intro s acc h
    simp at h
  | cons u rest ih =>
    intro s acc h
    cases hvu : v u with
    | true =>
      have h' : ∃ w ∈ rest, v w = false := by
        rcases h with ⟨w, hw, hwf⟩
        rcases List.mem_cons.mp hw with rfl | hwr
        · rw [hvu] at hwf
          cases hwf
        · exact ⟨w, hwr, hwf⟩
      have hrec := ih (createConversion s u now).2
        ((createConversion s u now).1 :: acc) h'
      have hL : bulkLoop v now (u :: rest) s acc
          = bulkLoop v now rest (createConversion s u now).2
              ((createConversion s u now).1 :: acc) := by
        simp [bulkLoop, hvu]
      have hT : (u :: rest).takeWhile v = u :: rest.takeWhile v := by
        simp [List.takeWhile_cons, hvu]
      refine ⟨?_, ?_⟩
      · rw [hL]
        exact hrec.1
      · rw [hL, hT]
        exact hrec.2
    | false =>
      refine ⟨?_, ?_⟩
      · simp [bulkLoop, hvu, isErr]
      · simp [bulkLoop, hvu, List.takeWhile_cons, createManyStore]

/-- Claim C1 counterexample: a bulk submission of a valid reference
followed by an invalid one is rejected with a validation error, yet the
store now holds a job for the valid reference, so the batch is not
all-or-nothing. -/
theorem C1_counterexample :
    isErr (bulkRoute (fun _ => true) (fun u => u == "ok")
        ["ok", "bad"] 0 emptyStorage).1 = true ∧
    ((bulkRoute (fun _ => true) (fun u => u == "ok")
        ["ok", "bad"] 0 emptyStorage).2.conversions.map
          (fun e => e.2.url)) = ["ok"] := by
  decide

/-- Claim C1 as amended: when the batch shape is accepted and some
reference fails the platform check, the request returns a validation
error and the store effect is exactly one created job per reference
strictly before the first failing one (so no job for the failing
reference or any reference after it; no jobs at all when the first
reference fails). -/
theorem C1_batch_validation (isUrl v : String → Bool) (urls : List String)
    (now : Nat) (s : MemStorage)
    (hschema : 1 ≤ urls.length ∧ urls.length ≤ 10 ∧ urls.all isUrl)
    (hbad : ∃ u ∈ urls, v u = false) :
    isErr (bulkRoute isUrl v urls now s).1 = true ∧
    (bulkRoute isUrl v urls now s).2
      = createManyStore now (urls.takeWhile v) s := by
  unfold bulkRoute
  rw [if_pos hschema]
  exact bulkLoop_first_invalid v now urls s [] hbad

/-- Witness for amended claim C1: a malformed reference submitted with
three valid ones; the batch errors and exactly the two jobs before the
malformed reference are created. -/
theorem C1_witness :
    isErr (bulkRoute (fun _ => true) (fun u => u == "ok")
        ["ok", "ok", "bad", "ok"] 0 emptyStorage).1 = true ∧
    (bulkRoute (fun _ => true) (fun u => u == "ok")
        ["ok", "ok", "bad", "ok"] 0 emptyStorage).2
      = createManyStore 0
          ((["ok", "ok", "bad", "ok"]).takeWhile (fun u => u == "ok"))
          emptyStorage :=
  C1_batch_validation (fun _ => true) (fun u => u == "ok")
    ["ok", "ok", "bad", "ok"] 0 emptyStorage (by decide) (by decide)

/-- A record surviving the bulk download filter is completed and has an
artifact location. -/
theorem validForBulk_spec (oc : Option Conversion) (c : Conversion)
    (h : validForBulk oc = some c) :
    c.status = "completed" ∧ c.filePath ≠ none := by
  cases oc with
  | none => simp [validForBulk] at h
  | some c0 =>
    simp only [validForBulk] at h
    split at h
    · cases h
      assumption
    · cases h

/-- When every surviving record has its backing file present, the archive
holds exactly one entry per surviving record, in order. -/
theorem bulkEntries_all_present (fe : String → Bool) :
    ∀ cs : List Conversion,
      (∀ c ∈ cs, c.filePath ≠ none) →
      (∀ c ∈ cs, ∀ fp, c.filePath = some fp → fe fp = true) →
      bulkEntries fe cs
        = cs.map (fun c =>
            { path := c.filePath.getD "", name := c.fileName.getD "audio.mp3" }) := by
  intro cs
  induction cs with
  | nil =>
    intro _ _
    rfl
  | cons c rest ih =>
    intro h1 h2
    have hc1 := h1 c (List.mem_cons_self c rest)
    have hc2 := h2 c (List.mem_cons_self c rest)
    cases hfp : c.filePath with
    | none => exact absurd hfp hc1
    | some fp =>
      have hfe : fe fp = true := hc2 fp hfp
      have hrest := ih (fun x hx => h1 x (List.mem_cons_of_mem _ hx))
        (fun x hx => h2 x (List.mem_cons_of_mem _ hx))
      simp only [bulkEntries, List.filterMap_cons, hfp, hfe, if_pos,
        List.map_cons] at hrest ⊢
      rw [hrest, Option.getD_some]

/-- Claim C6 counterexample: over an empty input the filtered set is
empty, yet the route signals a validation error (bad request) rather than
the not-found condition the claim requires for an empty filtered set. -/
theorem C6_counterexample :
    (([] : List Nat).map (getConversion emptyStorage)).filterMap validForBulk
      = [] ∧
    downloadBulk (fun _ => true) emptyStorage []
      ≠ BulkDownloadResult.notFound := by
  decide

/-- Claim C6 as amended: for every nonempty input list of identifiers,
the surviving set is the identifiers that resolve to an existing
completed job with a non-null artifact location, in input order; when it
is empty the route signals not-found; otherwise it streams one archive
entry per surviving record whose backing file is still present, and if
all backing files are present that is exactly one entry per surviving
record in input order. An empty input signals a validation error instead
of not-found. -/
theorem C6_archive_assembly (fe : String → Bool) (s : MemStorage)
    (ids : List Nat) (h : ids ≠ []) :
    (((ids.map (getConversion s)).filterMap validForBulk) = [] →
      downloadBulk fe s ids = BulkDownloadResult.notFound) ∧
    (((ids.map (getConversion s)).filterMap validForBulk) ≠ [] →
      downloadBulk fe s ids
        = BulkDownloadResult.archive
            (bulkEntries fe
              ((ids.map (getConversion s)).filterMap validForBulk))) ∧
    ((∀ c ∈ (ids.map (getConversion s)).filterMap validForBulk,
        ∀ fp, c.filePath = some fp → fe fp = true) →
      bulkEntries fe ((ids.map (getConversion s)).filterMap validForBulk)
        = ((ids.map (getConversion s)).filterMap validForBulk).map
            (fun c => { path := c.filePath.getD "",
                        name := c.fileName.getD "audio.mp3" })) := by
  refine ⟨?_, ?_, ?_⟩
  · intro hv
    unfold downloadBulk
    rw [if_neg h]
    simp only [hv, if_pos]
  · intro hv
    unfold downloadBulk
    rw [if_neg h, if_neg hv]
  · intro hfe
    refine bulkEntries_all_present fe _ ?_ hfe
    intro c hc
    obtain ⟨oc, _, hoc⟩ := List.mem_filterMap.mp hc
    exact (validForBulk_spec oc c hoc).2

/-- Witness for amended claim C6: over one completed job, one failed job
and one nonexistent id, the archive holds exactly the one entry of the
completed job. -/
theorem C6_witness :
    downloadBulk (fun _ => true) storeC6 [1, 2, 3]
      = BulkDownloadResult.archive
          (bulkEntries (fun _ => true)
            (([1, 2, 3].map (getConversion storeC6)).filterMap validForBulk)) ∧
    bulkEntries (fun _ => true)
        (([1, 2, 3].map (getConversion storeC6)).filterMap validForBulk)
      = [{ path := "1_7.mp3", name := "Song_1.mp3" }] := by
  refine ⟨(C6_archive_assembly (fun _ => true) storeC6 [1, 2, 3]
    (by decide)).2.1 (by decide), ?_⟩
  decide

/-- A record that is not yet terminal satisfies the record invariant. -/
theorem preTerminal_recordInv (c : Conversion) (h : preTerminal c) :
    recordInv c := by
  obtain ⟨hs, hfp, hfn, hfs, he, hca⟩ := h
  refine ⟨Or.inl hfp, ?_, ?_, ?_, ?_⟩
  · intro hne
    exact absurd hfp hne
  · intro hne
    exact absurd he hne
  · intro hc
    rcases hs with hs | hs <;> rw [hs] at hc <;> exact absurd hc (by decide)
  · intro hc
    rcases hs with hs | hs <;> rw [hs] at hc <;> exact absurd hc (by decide)

/-- The freshly created record of createConversion. -/
theorem preTerminal_create (s : MemStorage) (url : String) (now : Nat) :
    preTerminal (createConversion s url now).1 :=
  ⟨Or.inl rfl, rfl, rfl, rfl, rfl, rfl⟩

/-- The processing transition write keeps the record non-terminal. -/
theorem stepPatch_processing : stepPatch processingPatch := by
  intro c hc
  obtain ⟨_, h1, h2, h3, h4, h5⟩ := hc
  exact ⟨Or.inr rfl, h1, h2, h3, h4, h5⟩

/-- The metadata write keeps the record non-terminal. -/
theorem stepPatch_title (t : String) : stepPatch (titlePatch t) := by
  intro c hc
  obtain ⟨hs, h1, h2, h3, h4, h5⟩ := hc
  exact ⟨hs, h1, h2, h3, h4, h5⟩

/-- A transcode progress write keeps the record non-terminal. -/
theorem stepPatch_progress (v : Int) : stepPatch (progressPatch v) := by
  intro c hc
  obtain ⟨hs, h1, h2, h3, h4, h5⟩ := hc
  exact ⟨hs, h1, h2, h3, h4, h5⟩

/-- The completed write turns a non-terminal record into a valid
completed record. -/
theorem termPatch_completed (fp fn : String) (sz : Int) (d : Nat) :
    termPatch (completedPatch fp fn sz d) := by
  intro c hc
  obtain ⟨_, _, _, _, he, _⟩ := hc
  refine ⟨Or.inr he, ?_, ?_, ?_, ?_⟩
  · intro _
    exact Or.inl rfl
  · intro hne
    exact absurd he hne
  · intro _
    exact ⟨Option.some_ne_none fp, Option.some_ne_none fn,
      Option.some_ne_none sz, Option.some_ne_none d, rfl⟩
  · intro hx
    exact absurd hx (show ("completed" : String) ≠ "failed" by decide)

/-- The failed write turns a non-terminal record into a valid failed
record. -/
theorem termPatch_failed (m : String) : termPatch (failedPatch m) := by
  intro c hc
  obtain ⟨_, h1, h2, h3, _, _⟩ := hc
  refine ⟨Or.inl h1, ?_, ?_, ?_, ?_⟩
  · intro hne
    exact absurd h1 hne
  · intro _
    exact Or.inr rfl
  · intro hx
    exact absurd hx (show ("failed" : String) ≠ "completed" by decide)
  · intro _
    exact ⟨Option.some_ne_none m, h1, h2, h3⟩

/-- A terminal patch alone is a disciplined write sequence. -/
theorem goodTail_single (p : ConversionPatch) (h : termPatch p) :
    GoodTail [p] :=
  ⟨fun _ => h, fun hne => absurd rfl hne, trivial⟩

/-- Prepending a safe intermediate write to a nonempty disciplined
sequence keeps it disciplined. -/
theorem goodTail_cons (p : ConversionPatch) (l : List ConversionPatch)
    (hne : l ≠ []) (hp : stepPatch p) (h : GoodTail l) : GoodTail (p :: l) :=
  ⟨fun hx => absurd hx hne, fun _ => hp, h⟩

/-- The transcode progress writes followed by a terminal write form a
disciplined sequence. -/
theorem goodTail_progress_append (l : List (Option ℚ))
    (t : ConversionPatch) (ht : termPatch t) :
    GoodTail ((l.map (fun p => progressPatch (clampPercent p))) ++ [t]) := by
  induction l with
  | nil => exact goodTail_single t ht
  | cons p r ih =>
    exact goodTail_cons _ _ (by simp) (stepPatch_progress _) ih

/-- Every pipeline trace is a disciplined write sequence. -/
theorem goodTail_pipelineTrace (env : PipelineEnv) (id : Nat) :
    GoodTail (pipelineTrace env id) := by
  obtain ⟨info, events, ok, size, nonce, dAt, msg⟩ := env
  cases info with
  | none =>
    exact goodTail_cons _ _ (by simp) stepPatch_processing
      (goodTail_single _ (termPatch_failed msg))
  | some raw =>
    cases ok with
    | false =>
      refine goodTail_cons _ _ (by simp) stepPatch_processing ?_
      refine goodTail_cons _ _ (by simp) (stepPatch_title _) ?_
      exact goodTail_progress_append _ _ (termPatch_failed msg)
    | true =>
      cases size with
      | none =>
        refine goodTail_cons _ _ (by simp) stepPatch_processing ?_
        refine goodTail_cons _ _ (by simp) (stepPatch_title _) ?_
        exact goodTail_progress_append _ _ (termPatch_failed msg)
      | some sz =>
        refine goodTail_cons _ _ (by simp) stepPatch_processing ?_
        refine goodTail_cons _ _ (by simp) (stepPatch_title _) ?_
        exact goodTail_progress_append _ _ (termPatch_completed _ _ _ _)

/-- The store component of a created conversion. -/
theorem createConversion_snd_conversions (s : MemStorage) (url : String)
    (now : Nat) :
    ((createConversion s url now).2).conversions
      = mapSet s.conversions s.currentConversionId
          (createConversion s url now).1 := rfl

/-- Creating a conversion increments the identifier counter. -/
theorem createConversion_snd_id (s : MemStorage) (url : String) (now : Nat) :
    ((createConversion s url now).2).currentConversionId
      = s.currentConversionId + 1 := rfl

/-- An update on an absent id leaves the store untouched. -/
theorem updateConversion_absent (s : MemStorage) (id : Nat)
    (p : ConversionPatch) (hm : mapGet s.conversions id = none) :
    (updateConversion s id p).2 = s := by
  unfold updateConversion
  rw [hm]

/-- An update on a present id stores the merged record and keeps the
identifier counter. -/
theorem updateConversion_found (s : MemStorage) (id : Nat)
    (p : ConversionPatch) (c0 : Conversion)
    (hm : mapGet s.conversions id = some c0) :
    (updateConversion s id p).2.conversions
        = mapSet s.conversions id (mergeConversion c0 p) ∧
    (updateConversion s id p).2.currentConversionId
        = s.currentConversionId := by
  unfold updateConversion
  rw [hm]
  exact ⟨rfl, rfl⟩

/-- The system invariant is preserved by every step. -/
theorem sysInv_step {st st' : SysState} (hinv : SysInv st)
    (hstep : SysStep st st') : SysInv st' := by
  obtain ⟨hstore, hpipes⟩ := hinv
  cases hstep with
  | create url now env =>
    refine ⟨?_, ?_⟩
    · intro k c hk
      dsimp only at hk
      rw [createConversion_snd_conversions] at hk
      dsimp only
      rw [createConversion_snd_id]
      by_cases hkn : k = st.store.currentConversionId
      · subst hkn
        rw [mapGet_set_eq] at hk
        obtain rfl := Option.some.inj hk
        exact ⟨Nat.lt_succ_self _,
          preTerminal_recordInv _ (preTerminal_create _ _ _)⟩
      · rw [mapGet_set_ne _ _ _ _ hkn] at hk
        have h := hstore k c hk
        exact ⟨Nat.lt_succ_of_lt h.1, h.2⟩
    · intro k tr hk
      dsimp only at hk
      dsimp only
      rw [createConversion_snd_id]
      by_cases hkn : k = st.store.currentConversionId
      · subst hkn
        rw [mapGet_set_eq] at hk
        obtain rfl := Option.some.inj hk
        refine ⟨Nat.lt_succ_self _, goodTail_pipelineTrace env _, ?_⟩
        intro _ c hc
        rw [createConversion_snd_conversions, mapGet_set_eq] at hc
        obtain rfl := Option.some.inj hc
        exact preTerminal_create _ _ _
      · rw [mapGet_set_ne _ _ _ _ hkn] at hk
        obtain ⟨hlt, hgt, hrec⟩ := hpipes k tr hk
        refine ⟨Nat.lt_succ_of_lt hlt, hgt, ?_⟩
        intro hne c hc
        rw [createConversion_snd_conversions,
          mapGet_set_ne _ _ _ _ hkn] at hc
        exact hrec hne c hc
  | stepPipe id p rest h =>
    obtain ⟨hlt_id, hgt_cons, hpre⟩ := hpipes id (p :: rest) h
    obtain ⟨hterm, hstepp, hgtrest⟩ := hgt_cons
    cases hm : mapGet st.store.conversions id with
    | none =>
      have hseq : (updateConversion st.store id p).2 = st.store :=
        updateConversion_absent _ _ _ hm
      refine ⟨?_, ?_⟩
      · intro k c hk
        dsimp only at hk
        dsimp only
        rw [hseq] at hk ⊢
        exact hstore k c hk
      · intro k tr hk
        dsimp only at hk
        dsimp only
        rw [hseq]
        by_cases hki : k = id
        · subst hki
          rw [mapGet_set_eq] at hk
          obtain rfl := Option.some.inj hk
          refine ⟨hlt_id, hgtrest, ?_⟩
          intro _ c hc
          rw [hm] at hc
          cases hc
        · rw [mapGet_set_ne _ _ _ _ hki] at hk
          exact hpipes k tr hk
    | some c0 =>
      have hc0pre : preTerminal c0 := hpre (List.cons_ne_nil p rest) c0 hm
      obtain ⟨hconv, hcid⟩ := updateConversion_found st.store id p c0 hm
      have hmerge_inv : recordInv (mergeConversion c0 p) := by
        by_cases hr : rest = []
        · exact hterm hr c0 hc0pre
        · exact preTerminal_recordInv _ (hstepp hr c0 hc0pre)
      refine ⟨?_, ?_⟩
      · intro k c hk
        dsimp only at hk
        dsimp only
        rw [hconv] at hk
        rw [hcid]
        by_cases hki : k = id
        · subst hki
          rw [mapGet_set_eq] at hk
          obtain rfl := Option.some.inj hk
          exact ⟨hlt_id, hmerge_inv⟩
        · rw [mapGet_set_ne _ _ _ _ hki] at hk
          exact hstore k c hk
      · intro k tr hk
        dsimp only at hk
        dsimp only
        rw [hcid]
        by_cases hki : k = id
        · subst hki
          rw [mapGet_set_eq] at hk
          obtain rfl := Option.some.inj hk
          refine ⟨hlt_id, hgtrest, ?_⟩
          intro hne c hc
          rw [hconv, mapGet_set_eq] at hc
          obtain rfl := Option.some.inj hc
          exact hstepp hne c0 hc0pre
        · rw [mapGet_set_ne _ _ _ _ hki] at hk
          obtain ⟨hlt, hgt, hrec⟩ := hpipes k tr hk
          refine ⟨hlt, hgt, ?_⟩
          intro hne c hc
          rw [hconv, mapGet_set_ne _ _ _ _ hki] at hc
          exact hrec hne c hc
  | deleteStep id =>
    have hconv : ((deleteConversion st.store id).2).conversions
        = mapDel st.store.conversions id := rfl
    have hcid : ((deleteConversion st.store id).2).currentConversionId
        = st.store.currentConversionId := rfl
    refine ⟨?_, ?_⟩
    · intro k c hk
      dsimp only at hk
      dsimp only
      rw [hconv] at hk
      rw [hcid]
      by_cases hki : k = id
      · subst hki
        rw [mapGet_del_self] at hk
        cases hk
      · rw [mapGet_del_ne _ _ _ hki] at hk
        exact hstore k c hk
    · intro k tr hk
      dsimp only at hk
      dsimp only
      rw [hcid]
      obtain ⟨hlt, hgt, hrec⟩ := hpipes k tr hk
      refine ⟨hlt, hgt, ?_⟩
      intro hne c hc
      rw [hconv] at hc
      by_cases hki : k = id
      · subst hki
        rw [mapGet_del_self] at hc
        cases hc
      · rw [mapGet_del_ne _ _ _ hki] at hc
        exact hrec hne c hc

/-- Every reachable system state satisfies the system invariant. -/
theorem reachable_sysInv (st : SysState) (h : Reachable st) : SysInv st := by
  induction h with
  | init =>
    refine ⟨?_, ?_⟩
    · intro k c hk
      simp [mapGet] at hk
    · intro k tr hk
      simp [mapGet] at hk
  | step _ hs ih => exact sysInv_step ih hs

/-- Claim C3: in every system state reachable by the operations
(submissions, interleaved pipeline writes, deletions), every job record
in the store satisfies the record invariant: artifact location and error
detail are mutually exclusive and only present in a terminal status;
completed records have artifact location, display filename, byte size
and completion timestamp non-null and progress 100; failed records have
the error detail non-null and the artifact fields null. -/
theorem C3_record_invariants (st : SysState) (h : Reachable st) :
    ∀ k c, getConversion st.store k = some c → recordInv c := by
  intro k c hk
  exact ((reachable_sysInv st h).1 k c hk).2

/-- Witness for claim C3: in the state reached by one submission with its
pipeline registered, built by an explicit step derivation, the stored
record satisfies the record invariant. -/
theorem C3_witness : recordInv (createConversion emptyStorage "u" 0).1 :=
  C3_record_invariants
    (SysState.mk (createConversion emptyStorage "u" 0).2
      (mapSet ([] : List (Nat × List ConversionPatch))
        emptyStorage.currentConversionId
        (pipelineTrace envGood emptyStorage.currentConversionId)))
    (Reachable.step Reachable.init
      (SysStep.create (SysState.mk emptyStorage []) "u" 0 envGood))
    1 (createConversion emptyStorage "u" 0).1 (by decide)
